import Mathlib

/-!
Verification of the symbolic GR(1) game solver and strategy synthesizer
(`omega/games/gr1.py`).

The BDD engine is embedded semantically: a predicate over the declared
variables is the finite set of variable assignments that satisfy it.
Every variable `v` has an unprimed flavor `(v, false)` and a primed flavor
`(v, true)`; an assignment gives each flavored variable a value in the
variable's finite domain.  Boolean connectives, quantification over a
variable list, the unprimed-to-primed substitution `prime`, and the
`support`-based notion of state predicate are all realized as executable
set operations, so that concrete games evaluate by `decide`.

The fixpoint `while` loops of the source are embedded as fuel-indexed
recursions that replicate the source's do-while structure exactly: the
body runs, the iterate is recorded, and the loop stops when the new value
equals the previous one.  Any fuel at least the height of the (finite)
predicate lattice makes the embedding reach the same fixpoint as the
source; the theorems below are proved for every fuel value.
-/

set_option linter.unusedSectionVars false

namespace GR1

/-- A variable assignment: each variable `v : V` has an unprimed slot
`(v, false)` and a primed slot `(v, true)`, holding a value in the
variable's domain `Fin (dom v)`. -/
abbrev Asn (V : Type) (dom : V → Nat) : Type := ∀ p : V × Bool, Fin (dom p.1)

/-- A BDD node, semantically: the set of assignments satisfying it. -/
abbrev Pred (V : Type) (dom : V → Nat) : Type := Finset (Asn V dom)

variable {V : Type} [DecidableEq V] [Fintype V] {dom : V → Nat}

/-- The `aut.true` : the constant-true predicate. -/
def ptrue : Pred V dom := Finset.univ

/-- The `aut.false` : the constant-false predicate. -/
def pfalse : Pred V dom := (∅ : Finset (Asn V dom))

/-- The `u & v` on BDD nodes. -/
def pand (p q : Pred V dom) : Pred V dom := p ∩ q

/-- The `u | v` on BDD nodes. -/
def por (p q : Pred V dom) : Pred V dom := p ∪ q

/-- The `~ u` on BDD nodes. -/
def pnot (p : Pred V dom) : Pred V dom := Finset.univ \ p

/-- Implication `u => v`, an abbreviation for `~u | v` (used to state the
spec's formulas). -/
def pimp (p q : Pred V dom) : Pred V dom := por (pnot p) q

/-- Reading an assignment through the unprimed-to-primed substitution:
every variable slot is read at the primed flavor. -/
def primeAsn (a : Asn V dom) : Asn V dom := fun p => a (p.1, true)

/-- Modelled from the spec: `omega.symbolic.bdd.prime` (not under `src/`).
"Unprimed-to-primed substitution: `t′ := prime(target)`" — each unprimed
variable of `target` is replaced by its primed flavor. -/
def prime (p : Pred V dom) : Pred V dom :=
  Finset.univ.filter (fun a => primeAsn a ∈ p)

/-- Two assignments agree outside of the quantified variable list `vs`. -/
def agreeOff (vs : Finset (V × Bool)) (a b : Asn V dom) : Prop :=
  ∀ q : V × Bool, q ∉ vs → a q = b q

instance (vs : Finset (V × Bool)) (a b : Asn V dom) : Decidable (agreeOff vs a b) := by
  unfold agreeOff; infer_instance

/-- Modelled from the spec: the BDD kernel's `exist(vars, u)` (not under
`src/`): existential quantification over a named variable list. -/
def pexist (vs : Finset (V × Bool)) (p : Pred V dom) : Pred V dom :=
  Finset.univ.filter (fun a => ∃ b ∈ p, agreeOff vs a b)

/-- Modelled from the spec: the BDD kernel's `forall(vars, u)` (not under
`src/`): universal quantification over a named variable list. -/
def pforall (vs : Finset (V × Bool)) (p : Pred V dom) : Pred V dom :=
  Finset.univ.filter (fun a => ∀ b : Asn V dom, agreeOff vs a b → b ∈ p)

/-- Two assignments agree on every unprimed variable. -/
def agreeUnprimed (a b : Asn V dom) : Prop :=
  ∀ v : V, a (v, false) = b (v, false)

instance (a b : Asn V dom) : Decidable (agreeUnprimed a b) := by
  unfold agreeUnprimed; infer_instance

/-- Modelled from the spec: `omega.symbolic.bdd.is_state_predicate` (not
under `src/`): "`Z` is a state predicate (support is unprimed only)" —
semantically, membership depends only on the unprimed variable values. -/
def is_state_predicate (p : Pred V dom) : Prop :=
  ∀ a b : Asn V dom, agreeUnprimed a b → (a ∈ p ↔ b ∈ p)

instance (p : Pred V dom) : Decidable (is_state_predicate p) := by
  unfold is_state_predicate
  have h : DecidablePred fun a : Asn V dom =>
      ∀ b : Asn V dom, agreeUnprimed a b → (a ∈ p ↔ b ∈ p) :=
    fun a => Fintype.decidableForallFintype
  exact Fintype.decidableForallFintype

/-- The four initial-quantifier regimes `qinit ∈ {∀∀, ∃∃, ∀∃, ∃∀}`. -/
inductive Qinit : Type
  | AA  -- '\A \A'
  | EE  -- '\E \E'
  | AE  -- '\A \E'
  | EA  -- '\E \A'
deriving DecidableEq

/-- The compiled game (`symbolic.Automaton` as used by `gr1.py`):
variable owners, action and initial predicates, the recurrence goal list
`win['[]<>']`, the persistence hold list `win['<>[]']`, and the flags
`moore`, `plus_one`, `qinit`. -/
structure Aut (V : Type) (dom : V → Nat) : Type where
  owner : V → Bool          -- `true` means the variable is owned by `sys`
  action_env : Pred V dom   -- `aut.action['env']`
  action_sys : Pred V dom   -- `aut.action['sys']`
  init_env : Pred V dom     -- `aut.init['env']`
  init_sys : Pred V dom     -- `aut.init['sys']`
  win_GF : List (Pred V dom)  -- `aut.win['[]<>']` recurrence goals
  win_FG : List (Pred V dom)  -- `aut.win['<>[]']` persistence holds
  moore : Bool
  plus_one : Bool
  qinit : Qinit

/-- The `aut.varlist['env']`: the unprimed variables owned by the environment
(quantification only depends on the set of listed variables, so varlists
are embedded as finite sets). -/
def varlist_env (aut : Aut V dom) : Finset (V × Bool) :=
  Finset.univ.filter (fun q => q.2 = false ∧ aut.owner q.1 = false)

/-- The `aut.varlist['sys']`: the unprimed variables owned by the system. -/
def varlist_sys (aut : Aut V dom) : Finset (V × Bool) :=
  Finset.univ.filter (fun q => q.2 = false ∧ aut.owner q.1 = true)

/-- The `aut.varlist["env'"]`: the primed variables owned by the environment. -/
def varlist_env' (aut : Aut V dom) : Finset (V × Bool) :=
  Finset.univ.filter (fun q => q.2 = true ∧ aut.owner q.1 = false)

/-- The `aut.varlist["sys'"]`: the primed variables owned by the system. -/
def varlist_sys' (aut : Aut V dom) : Finset (V × Bool) :=
  Finset.univ.filter (fun q => q.2 = true ∧ aut.owner q.1 = true)

/-- Modelled from the spec: `omega.symbolic.fixpoint.step` (`CPre`, not
under `src/`).  "`CPre(target)`: unprimed-to-primed substitution
`t′ := prime(target)`; if `plus_one`: `u := α_sys ∧ (α_env ⟶ t′)`; else
`u := α_env ⟶ (α_sys ∧ t′)`; [quantified over primed system variables —
`CAct` is the same structure *not* so quantified]; if `moore`:
universally quantify over `varlist[env′]`." -/
def step (env_action sys_action : Pred V dom) (target : Pred V dom)
    (aut : Aut V dom) : Pred V dom :=
  let u := prime target
  let u :=
    if aut.plus_one then
      pand (por u (pnot env_action)) sys_action
    else
      por (pand u sys_action) (pnot env_action)
  let u := pexist (varlist_sys' aut) u
  if aut.moore then pforall (varlist_env' aut) u else u

/-- One iteration of the `trap` greatest-fixpoint loop:
`x := (CPre(x) ∨ unless) ∧ safe`. -/
def trap_body (env_action sys_action safe : Pred V dom) (aut : Aut V dom)
    (unl : Pred V dom) (x : Pred V dom) : Pred V dom :=
  pand (por (step env_action sys_action x aut) unl) safe

/-- The `while x != xold` loop of `trap`, with fuel bounding the number of
iterations (any fuel at least the lattice height reaches the fixpoint). -/
def trap_loop (env_action sys_action safe : Pred V dom) (aut : Aut V dom)
    (unl : Pred V dom) : Nat → Pred V dom → Pred V dom
  | 0, x => x
  | n + 1, x =>
    let x2 := trap_body env_action sys_action safe aut unl x
    if x2 = x then x2 else trap_loop env_action sys_action safe aut unl n x2

/-- Modelled from the spec: `omega.symbolic.fixpoint.trap` (not under
`src/`): "the greatest fixpoint of `λx. (CPre(x) ∨ unless) ∧ safe`",
computed by iteration from `⊤`. -/
def trap (env_action sys_action safe : Pred V dom) (aut : Aut V dom)
    (unl : Pred V dom) (fuel : Nat) : Pred V dom :=
  trap_loop env_action sys_action safe aut unl fuel ptrue

/-- The `_controllable_action(target, aut)` (source `gr1.py`, lines 488-507):
"half" the quantification of `CPre`. -/
def controllable_action (target : Pred V dom) (aut : Aut V dom) : Pred V dom :=
  let env_action := aut.action_env
  let sys_action := aut.action_sys
  let u := prime target
  let u :=
    if aut.plus_one then
      -- sys_action /\ (env_action => target')
      pand (por u (pnot env_action)) sys_action
    else
      -- env_action => (sys_action /\ target')
      por (pand u sys_action) (pnot env_action)
  if aut.moore then
    -- \A uvars'
    pforall (varlist_env' aut) u
  else u

/-- The formula the spec ascribes to `CAct(target)`, written from the
spec's words (for the refinement claim C1): `α_sys ∧ (α_env ⟶ t′)` under
`plus_one`, else `α_env ⟶ (α_sys ∧ t′)`, universally quantified over
`varlist[env′]` exactly when `moore`, with no quantification over primed
system variables. -/
def controllable_action_spec (target : Pred V dom) (aut : Aut V dom) : Pred V dom :=
  let t' := prime target
  let u :=
    if aut.plus_one then
      pand aut.action_sys (pimp aut.action_env t')
    else
      pimp aut.action_env (pand aut.action_sys t')
  if aut.moore then pforall (varlist_env' aut) u else u

/-! ## Streett(1) solver (`solve_streett_game`, `_attractor_under_assumptions`) -/

/-- One iteration of the `while y != yold` loop of
`_attractor_under_assumptions` (source lines 79-90): compute
`cox_y`, `unless := cox_y | goal`, then for each `safe` in
`aut.win['<>[]']` conjoin a `trap` and accumulate `y |= x`, recording the
per-hold `xk` list.  Returns the new `y` and `xk`. -/
def attr_assume_body (goal : Pred V dom) (aut : Aut V dom) (fuel : Nat)
    (y : Pred V dom) : Pred V dom × List (Pred V dom) :=
  let env_action := aut.action_env
  let sys_action := aut.action_sys
  let cox_y := step env_action sys_action y aut
  let unl := por cox_y goal
  aut.win_FG.foldl
    (fun acc safe =>
      let x := trap env_action sys_action safe aut unl fuel
      (por acc.1 x, acc.2 ++ [x]))
    (y, [])

/-- The `while y != yold` loop of `_attractor_under_assumptions`, with the
accumulating iterate records `yj` and `xjk` (appended after each pass,
including the final stabilized one, exactly as in the source). -/
def attr_assume_loop (goal : Pred V dom) (aut : Aut V dom) (fuel : Nat) :
    Nat → Pred V dom → List (Pred V dom) → List (List (Pred V dom)) →
      Pred V dom × List (Pred V dom) × List (List (Pred V dom))
  | 0, y, yj, xjk => (y, yj, xjk)
  | n + 1, y, yj, xjk =>
    let r := attr_assume_body goal aut fuel y
    let yj2 := yj ++ [r.1]
    let xjk2 := xjk ++ [r.2]
    if r.1 = y then (r.1, yj2, xjk2)
    else attr_assume_loop goal aut fuel n r.1 yj2 xjk2

/-- The `_attractor_under_assumptions(goal, aut)` (source lines 71-91):
targeting `goal` under unconditional assumptions, starting from
`y = aut.false` with empty iterate records. -/
def attractor_under_assumptions (goal : Pred V dom) (aut : Aut V dom)
    (fuel : Nat) : Pred V dom × List (Pred V dom) × List (List (Pred V dom)) :=
  attr_assume_loop goal aut fuel fuel pfalse [] []

/-- One iteration of the outer `while z != zold` loop of
`solve_streett_game` (source lines 56-66): `cox_z` is computed from the
value of `Z` at the head of the iteration, then for each goal the
attractor is computed and `z &= y`, recording `yj` and `xjk` per goal. -/
def streett_round (aut : Aut V dom) (fuel : Nat) (z : Pred V dom) :
    Pred V dom × List (List (Pred V dom)) × List (List (List (Pred V dom))) :=
  let cox_z := step aut.action_env aut.action_sys z aut
  aut.win_GF.foldl
    (fun acc goal =>
      let goal2 := pand goal cox_z
      let r := attractor_under_assumptions goal2 aut fuel
      (pand acc.1 r.1, acc.2.1 ++ [r.2.1], acc.2.2 ++ [r.2.2]))
    (z, [], [])

/-- The outer `while z != zold` loop of `solve_streett_game`; the iterate
records are reset at the start of each round, so the returned `yij` and
`xijk` are those of the final round, as in the source. -/
def streett_loop (aut : Aut V dom) (fuel : Nat) :
    Nat → Pred V dom →
      Pred V dom × List (List (Pred V dom)) × List (List (List (Pred V dom)))
  | 0, z => (z, [], [])
  | n + 1, z =>
    let r := streett_round aut fuel z
    if r.1 = z then r else streett_loop aut fuel n r.1

/-- The `solve_streett_game(aut)` (source lines 35-68): the winning set and
iterates for the Streett(1) game, starting the outer fixpoint at
`z = aut.true`. -/
def solve_streett_game (aut : Aut V dom) (fuel : Nat) :
    Pred V dom × List (List (Pred V dom)) × List (List (List (Pred V dom))) :=
  streett_loop aut fuel fuel ptrue

/-- The value of `Z` at the head of the `n`-th iteration of the outer
fixpoint loop of `solve_streett_game`: `Z_0 = ⊤` and
`Z_{n+1} = streett_round Z_n` (the loop body applied to `Z_n`). -/
def streett_Z (aut : Aut V dom) (fuel : Nat) : Nat → Pred V dom
  | 0 => ptrue
  | n + 1 => (streett_round aut fuel (streett_Z aut fuel n)).1

/-- A trivial realizable game over a single system-owned variable with a
one-value domain: all actions and initial conditions are `⊤`, one
recurrence goal `⊤`, one persistence hold `⊤` (spec §8, scenario 1). -/
def exTriv : Aut Unit (fun _ => 1) where
  owner := fun _ => true
  action_env := ptrue
  action_sys := ptrue
  init_env := ptrue
  init_sys := ptrue
  win_GF := [ptrue]
  win_FG := [ptrue]
  moore := false
  plus_one := true
  qinit := Qinit.EE

/-! ## Rabin(1) solver (`solve_rabin_game`, `_cycle_inside`,
`_attractor_inside`) -/

/-- One iteration of the `while x != xold` loop of `_attractor_inside`
(source lines 246-252): `x := ((CPre(x) ∨ goal) ∧ inside) ∨ xold`. -/
def attractor_inside_body (inside goal : Pred V dom) (aut : Aut V dom)
    (x : Pred V dom) : Pred V dom :=
  let env_action := aut.action_env
  let sys_action := aut.action_sys
  let cox_x := step env_action sys_action x aut
  por (pand (por cox_x goal) inside) x

/-- The `while x != xold` loop of `_attractor_inside`, recording every
iterate in `xr` (appended each pass, including the final stabilized one). -/
def attr_inside_loop (inside goal : Pred V dom) (aut : Aut V dom) :
    Nat → Pred V dom → List (Pred V dom) → Pred V dom × List (Pred V dom)
  | 0, x, xr => (x, xr)
  | n + 1, x, xr =>
    let x2 := attractor_inside_body inside goal aut x
    let xr2 := xr ++ [x2]
    if x2 = x then (x2, xr2)
    else attr_inside_loop inside goal aut n x2 xr2

/-- The `_attractor_inside(inside, goal, aut)` (source lines 240-253): the
least fixpoint of `λx. (CPre(x) ∨ goal) ∧ inside` constrained to remain
inside `inside`, from `x = aut.false`, together with its iterate history. -/
def attractor_inside (inside goal : Pred V dom) (aut : Aut V dom)
    (fuel : Nat) : Pred V dom × List (Pred V dom) :=
  attr_inside_loop inside goal aut fuel pfalse []

/-- One iteration of the `while y != yold` loop of `_cycle_inside`
(source lines 228-236): `inside := cox_y ∧ g`, then for each goal an
`_attractor_inside` run with `y &= x`, recording the per-goal `xjr`. -/
def cycle_inside_body (g : Pred V dom) (aut : Aut V dom) (fuel : Nat)
    (y : Pred V dom) : Pred V dom × List (List (Pred V dom)) :=
  let env_action := aut.action_env
  let sys_action := aut.action_sys
  let cox_y := step env_action sys_action y aut
  let inside := pand cox_y g
  aut.win_GF.foldl
    (fun acc goal =>
      let r := attractor_inside inside goal aut fuel
      (pand acc.1 r.1, acc.2 ++ [r.2]))
    (y, [])

/-- The `while y != yold` loop of `_cycle_inside`; the per-goal records
are reset each pass, so the returned `xjr` is that of the final pass. -/
def cycle_inside_loop (g : Pred V dom) (aut : Aut V dom) (fuel : Nat) :
    Nat → Pred V dom → Pred V dom × List (List (Pred V dom))
  | 0, y => (y, [])
  | n + 1, y =>
    let r := cycle_inside_body g aut fuel y
    if r.1 = y then r else cycle_inside_loop g aut fuel n r.1

/-- The `_cycle_inside(z, hold, aut)` (source lines 220-237): cycling through
the goals while staying in `hold`, with `g := cox_z | hold` computed from
the `z` passed in and `y` starting at `aut.true`. -/
def cycle_inside (z hold : Pred V dom) (aut : Aut V dom) (fuel : Nat) :
    Pred V dom × List (List (Pred V dom)) :=
  let cox_z := step aut.action_env aut.action_sys z aut
  let g := por cox_z hold
  cycle_inside_loop g aut fuel fuel ptrue

/-- One iteration of the outer `while z != zold` loop of
`solve_rabin_game` (source lines 204-215): for each hold a
`_cycle_inside` run with `z |= y` (each run receives the `zold` from the
head of the iteration), recording `yi` and `xijr`. -/
def rabin_round (aut : Aut V dom) (fuel : Nat) (z : Pred V dom) :
    Pred V dom × List (Pred V dom) × List (List (List (Pred V dom))) :=
  aut.win_FG.foldl
    (fun acc hold =>
      let r := cycle_inside z hold aut fuel
      (por acc.1 r.1, acc.2.1 ++ [r.1], acc.2.2 ++ [r.2]))
    (z, [], [])

/-- The outer `while z != zold` loop of `solve_rabin_game`, appending
`z`, `yi` and `xijr` to the global records `zk`, `yki`, `xkijr` after
each round (including the final stabilized one). -/
def rabin_loop (aut : Aut V dom) (fuel : Nat) :
    Nat → Pred V dom → List (Pred V dom) → List (List (Pred V dom)) →
      List (List (List (List (Pred V dom)))) →
      List (Pred V dom) × List (List (Pred V dom)) ×
        List (List (List (List (Pred V dom))))
  | 0, _, zk, yki, xkijr => (zk, yki, xkijr)
  | n + 1, z, zk, yki, xkijr =>
    let r := rabin_round aut fuel z
    let zk2 := zk ++ [r.1]
    let yki2 := yki ++ [r.2.1]
    let xkijr2 := xkijr ++ [r.2.2]
    if r.1 = z then (zk2, yki2, xkijr2)
    else rabin_loop aut fuel n r.1 zk2 yki2 xkijr2

/-- The `solve_rabin_game(aut)` (source lines 186-217): the recorded
Z-iterates and per-level records for the Rabin(1) game, starting the
outer fixpoint at `z = aut.false`. -/
def solve_rabin_game (aut : Aut V dom) (fuel : Nat) :
    List (Pred V dom) × List (List (Pred V dom)) ×
      List (List (List (List (Pred V dom)))) :=
  rabin_loop aut fuel fuel pfalse [] [] []

/-! ## Realizability check and initial-condition synthesis -/

/-- The `is_realizable(z, aut)` (source lines 395-485).  The
`assert env_init != aut.false` ("vacuous spec") and the
`assert not aut.moore` of the `∀∃` branch are modelled by `none`;
otherwise `some r` holds the boolean verdict of the `qinit` case
analysis.  The `ValueError` branch for an unknown `qinit` cannot arise
since `Qinit` enumerates exactly the four valid values, and the
non-fatal diagnostic `print`s do not affect the result. -/
def is_realizable (z : Pred V dom) (aut : Aut V dom) : Option Bool :=
  let env_init := aut.init_env
  let sys_init := aut.init_sys
  let evars := varlist_sys aut
  let uvars := varlist_env aut
  if env_init = pfalse then none
  else
    match aut.qinit with
    | Qinit.AA =>
      -- \A env, sys:  env_init => (sys_init /\ z)
      let u := pand sys_init z
      let u := por u (pnot env_init)
      some (decide (u = ptrue))
    | Qinit.EE =>
      -- \E env, sys:  env_init /\ sys_init /\ z
      let u := pand sys_init z
      let u := pand u env_init
      let u := pexist (evars ∪ uvars) u
      some (decide (u = ptrue))
    | Qinit.AE =>
      if aut.moore then none
      else
        -- \A env:  \E sys:  (\E sys: env_init) => env_init /\ sys_init /\ z
        let a := pexist evars env_init
        let u := pand sys_init z
        let u := pand u env_init
        let u := por u (pnot a)
        let u := pexist evars u
        let u := pforall uvars u
        some (decide (u = ptrue))
    | Qinit.EA =>
      -- \E sys:  \A env:  (\E sys: env_init) => env_init /\ sys_init /\ z
      let a := pexist evars env_init
      let u := pand sys_init z
      let u := pand u env_init
      let u := por u (pnot a)
      let u := pforall uvars u
      let u := pexist evars u
      some (decide (u = ptrue))

/-- The `_make_init(internal_init, win, aut)` (source lines 510-542).  The
two `assert`s are modelled by `none`; on success the embedding returns
the pair `(init['impl_env'], init['impl_sys'])` instead of mutating the
game.  (The `ValueError` branch cannot arise with the `Qinit`
enumeration.) -/
def make_init (internal_init win : Pred V dom) (aut : Aut V dom) :
    Option (Pred V dom × Pred V dom) :=
  let a := aut.init_env
  let b := aut.init_sys
  let u := pand b internal_init
  let sys_init := pand u win
  let env_init :=
    match aut.qinit with
    | Qinit.AA | Qinit.AE | Qinit.EE => pand a sys_init
    | Qinit.EA =>
      let env_bound := pexist (varlist_sys aut) a
      let u := pand a sys_init
      let u := por u (pnot env_bound)
      let sys_bound := pforall (varlist_env aut) u
      pand env_bound sys_bound
  if env_init = pfalse then none
  else if sys_init = pfalse then none
  else some (env_init, sys_init)

/-- The `∃∀` initial condition the spec (and claim C5) ascribe to
`_make_init`, written from the spec's words (for the refinement claim
C5): `ι_impl_env := env_bound ∧ sys_bound` with `env_bound := ∃sys. ι_env`
and `sys_bound := ∀env. ((ι_env ⟶ ι_sys ∧ W ∧ counter_init) ∨ ¬env_bound)`. -/
def make_init_EA_env_init_spec (internal_init win : Pred V dom)
    (aut : Aut V dom) : Pred V dom :=
  let env_bound := pexist (varlist_sys aut) aut.init_env
  let sys_bound := pforall (varlist_env aut)
    (por (pimp aut.init_env (pand (pand aut.init_sys win) internal_init))
      (pnot env_bound))
  pand env_bound sys_bound

/-- A single system-owned two-valued variable `s`, with `ι_env = (s = 1)`
(an environment initial condition that mentions a system variable) and
`qinit = ∃∀` — the regime where the claim's implication-form differs
from the code's conjunction. -/
def sVar : Pred Unit (fun _ => 2) :=
  Finset.univ.filter (fun a => a ((), false) = 1)

def exC5 : Aut Unit (fun _ => 2) where
  owner := fun _ => true
  action_env := ptrue
  action_sys := ptrue
  init_env := sVar
  init_sys := ptrue
  win_GF := [ptrue]
  win_FG := [ptrue]
  moore := false
  plus_one := true
  qinit := Qinit.EA

/-! ## Strategy synthesizers (`make_streett_transducer`,
`make_rabin_transducer`)

`aut.declare_variables` refines the shared BDD manager with the counter
variables; the embedding reflects this by moving to the extended variable
type (`V ⊕ Unit` for Streett with the `_goal` counter, `V ⊕ Bool` for
Rabin with `_hold := Sum.inr false` and `_goal := Sum.inr true`) and
injecting the existing predicates by `liftPredS` / `liftPredR` (a BDD
node of the refined manager that does not mention the new variables).
The counters are appended to `varlist['sys']`, which the extended
`owner` function records.  The source's `add_expr` string predicates are
built directly as predicates (the string syntax is a front-end artifact).
The transducers return `some (action['impl'], init['impl_env'],
init['impl_sys'])`, and `none` on any failed assertion. -/

/-- The variable support of a BDD node: the flavored variables on which
membership depends. -/
def psupport (p : Pred V dom) : Finset (V × Bool) :=
  Finset.univ.filter (fun q => ∃ a : Asn V dom, ∃ k : Fin (dom q.1),
    ¬(Function.update a q k ∈ p ↔ a ∈ p))

/-- The `_warn_moore_mealy(aut)` (source lines 545-579): diagnostic only; the
boolean verdict (no suspicious primed-variable dependency) is computed,
the `print`s are omitted. -/
def warn_moore_mealy (aut : Aut V dom) : Bool :=
  let env_dep_sys' := psupport aut.action_env ∩ varlist_sys' aut
  let sys_dep_env' := psupport aut.action_sys ∩ varlist_env' aut
  ! (decide ((aut.moore = true ∧ sys_dep_env' ≠ ∅)
      ∨ (aut.moore = false ∧ env_dep_sys' ≠ ∅)
      ∨ env_dep_sys' ≠ ∅))

/-- The domain map after `declare_variables(_goal=(0, n_goals - 1))`:
the `_goal` counter has `n_goals` values. -/
def streett_dom (dom : V → Nat) (m : Nat) : V ⊕ Unit → Nat :=
  Sum.elim dom (fun _ => m)

/-- Inject a predicate of the original game into the refined manager. -/
def liftPredS (m : Nat) (p : Pred V dom) :
    Pred (V ⊕ Unit) (streett_dom dom m) :=
  Finset.univ.filter (fun a => (fun q : V × Bool => a (Sum.inl q.1, q.2)) ∈ p)

/-- The compiled game after declaring `_goal` and appending it to
`varlist['sys']`. -/
def streett_extend (aut : Aut V dom) :
    Aut (V ⊕ Unit) (streett_dom dom aut.win_GF.length) where
  owner := Sum.elim aut.owner (fun _ => true)
  action_env := liftPredS aut.win_GF.length aut.action_env
  action_sys := liftPredS aut.win_GF.length aut.action_sys
  init_env := liftPredS aut.win_GF.length aut.init_env
  init_sys := liftPredS aut.win_GF.length aut.init_sys
  win_GF := aut.win_GF.map (liftPredS aut.win_GF.length)
  win_FG := aut.win_FG.map (liftPredS aut.win_GF.length)
  moore := aut.moore
  plus_one := aut.plus_one
  qinit := aut.qinit

/-- The `add_expr("_goal = i")` (or its primed flavor). -/
def goal_eq (m : Nat) (primed : Bool) (i : Nat) :
    Pred (V ⊕ Unit) (streett_dom dom m) :=
  Finset.univ.filter (fun a => (a (Sum.inr (), primed)).val = i)

/-- The `add_expr("_goal \in 0..c_max")`. -/
def goal_range (m c_max : Nat) : Pred (V ⊕ Unit) (streett_dom dom m) :=
  Finset.univ.filter (fun a => (a (Sum.inr (), false)).val ≤ c_max)

/-- The `make_streett_transducer(z, yij, xijk, aut)` (source lines 94-183).
The leading `assert is_realizable(winning, aut)` is modelled by returning
`none` unless the check yields `some true`; the trailing
`assert u != aut.false` and the `_make_init` assertions likewise yield
`none`.  On success the triple `(action['impl'], init['impl_env'],
init['impl_sys'])` over the extended variables is returned.  (`yj[0]` on
an empty iterate list — impossible for solver output, which records at
least one iterate — is embedded as `headD ⊥`; the length assertion of
ρ₃ is reflected by `zip`, which for solver output traverses the same
pairs.) -/
def make_streett_transducer (z : Pred V dom)
    (yij : List (List (Pred V dom))) (xijk : List (List (List (Pred V dom))))
    (aut : Aut V dom) :
    Option (Pred (V ⊕ Unit) (streett_dom dom aut.win_GF.length)
      × Pred (V ⊕ Unit) (streett_dom dom aut.win_GF.length)
      × Pred (V ⊕ Unit) (streett_dom dom aut.win_GF.length)) :=
  match is_realizable z aut with
  | some true =>
    let _warn := warn_moore_mealy aut
    let m := aut.win_GF.length
    let c_max := m - 1
    let aut2 := streett_extend aut
    let env_action := aut2.action_env
    let holds := aut2.win_FG
    let goals := aut2.win_GF
    -- \rho_1: switch goals
    let rho_1 := goals.enum.foldl
      (fun acc gi =>
        let i := gi.1
        let ip := (i + 1) % goals.length
        let u := pand (goal_eq m false i) (goal_eq m true ip)
        let u := pand u gi.2
        por acc u)
      pfalse
    let zstar := controllable_action (liftPredS m z) aut2
    let rho_1 := pand rho_1 zstar
    -- \rho_2: descent in basin
    let rho_2 := yij.enum.foldl
      (fun acc iyj =>
        let i := iyj.1
        let yjl := iyj.2.map (liftPredS m)
        let count := pand (goal_eq m false i) (goal_eq m true i)
        let rr := yjl.tail.foldl
          (fun (bc : Pred (V ⊕ Unit) (streett_dom dom m)
              × Pred (V ⊕ Unit) (streett_dom dom m)) y =>
            let basin := bc.1
            let ystar := controllable_action basin aut2
            let rim := pand y (pnot basin)
            let u := pand rim ystar
            (por basin y, por bc.2 u))
          (yjl.headD pfalse, pfalse)
        por acc (pand rr.2 count))
      pfalse
    -- \rho_3: persistence holds
    let rho_3 := xijk.enum.foldl
      (fun acc ixjk =>
        let i := ixjk.1
        let count := pand (goal_eq m false i) (goal_eq m true i)
        let rr := ixjk.2.foldl
          (fun (ur : Pred (V ⊕ Unit) (streett_dom dom m)
              × Pred (V ⊕ Unit) (streett_dom dom m)) xk =>
            ((xk.map (liftPredS m)).zip holds).foldl
              (fun (ur2 : Pred (V ⊕ Unit) (streett_dom dom m)
                  × Pred (V ⊕ Unit) (streett_dom dom m)) xh =>
                let x := xh.1
                let hold := xh.2
                let xstar := controllable_action x aut2
                let stay := pand x (pnot ur2.1)
                let used := por ur2.1 x
                let u := pand (pand stay xstar) hold
                (used, por ur2.2 u))
              ur)
          (pfalse, pfalse)
        por acc (pand rr.2 count))
      pfalse
    -- \rho
    let u := por rho_1 rho_2
    let u := por u rho_3
    -- counter `_goal` limits
    let u := pand u (goal_range m c_max)
    let u :=
      if aut.plus_one then u
      else
        let u := por u (pnot env_action)
        if aut.moore then pforall (varlist_env' aut2) u else u
    if u = pfalse then none
    else
      let count := goal_eq m false 0
      match make_init count (liftPredS m z) aut2 with
      | none => none
      | some es => some (u, es.1, es.2)
  | _ => none

/-- The domain map after `declare_variables(_hold=(0, n_w),
_goal=(0, n_c))`: `_hold` has `n_holds + 1` values (the last one is the
"none" sentinel) and `_goal` has `n_goals` values. -/
def rabin_dom (dom : V → Nat) (nh ng : Nat) : V ⊕ Bool → Nat :=
  Sum.elim dom (fun b => if b then ng else nh + 1)

/-- Inject a predicate of the original game into the refined manager. -/
def liftPredR (nh ng : Nat) (p : Pred V dom) :
    Pred (V ⊕ Bool) (rabin_dom dom nh ng) :=
  Finset.univ.filter (fun a => (fun q : V × Bool => a (Sum.inl q.1, q.2)) ∈ p)

/-- The compiled game after declaring `_hold` and `_goal` and appending
them to `varlist['sys']`. -/
def rabin_extend (aut : Aut V dom) :
    Aut (V ⊕ Bool) (rabin_dom dom aut.win_FG.length aut.win_GF.length) where
  owner := Sum.elim aut.owner (fun _ => true)
  action_env := liftPredR aut.win_FG.length aut.win_GF.length aut.action_env
  action_sys := liftPredR aut.win_FG.length aut.win_GF.length aut.action_sys
  init_env := liftPredR aut.win_FG.length aut.win_GF.length aut.init_env
  init_sys := liftPredR aut.win_FG.length aut.win_GF.length aut.init_sys
  win_GF := aut.win_GF.map (liftPredR aut.win_FG.length aut.win_GF.length)
  win_FG := aut.win_FG.map (liftPredR aut.win_FG.length aut.win_GF.length)
  moore := aut.moore
  plus_one := aut.plus_one
  qinit := aut.qinit

/-- The `add_expr("_hold = i")` (or its primed flavor). -/
def hold_eq (nh ng : Nat) (primed : Bool) (i : Nat) :
    Pred (V ⊕ Bool) (rabin_dom dom nh ng) :=
  Finset.univ.filter (fun a => (a (Sum.inr false, primed)).val = i)

/-- The `add_expr("_hold /= i")`. -/
def hold_ne (nh ng : Nat) (primed : Bool) (i : Nat) :
    Pred (V ⊕ Bool) (rabin_dom dom nh ng) :=
  Finset.univ.filter (fun a => (a (Sum.inr false, primed)).val ≠ i)

/-- The `add_expr("_hold' = _hold")`. -/
def hold_keep (nh ng : Nat) : Pred (V ⊕ Bool) (rabin_dom dom nh ng) :=
  Finset.univ.filter (fun a => a (Sum.inr false, true) = a (Sum.inr false, false))

/-- The `add_expr("_goal = j")` (or its primed flavor). -/
def rgoal_eq (nh ng : Nat) (primed : Bool) (j : Nat) :
    Pred (V ⊕ Bool) (rabin_dom dom nh ng) :=
  Finset.univ.filter (fun a => (a (Sum.inr true, primed)).val = j)

/-- The `add_expr("_goal' = _goal")`. -/
def rgoal_keep (nh ng : Nat) : Pred (V ⊕ Bool) (rabin_dom dom nh ng) :=
  Finset.univ.filter (fun a => a (Sum.inr true, true) = a (Sum.inr true, false))

/-- The `add_expr("(_hold \in 0..n_w) /\ (_goal \in 0..n_c)")`. -/
def rabin_range (nh ng n_w n_c : Nat) : Pred (V ⊕ Bool) (rabin_dom dom nh ng) :=
  Finset.univ.filter (fun a =>
    (a (Sum.inr false, false)).val ≤ n_w ∧ (a (Sum.inr true, false)).val ≤ n_c)

/-- The `make_rabin_transducer(zk, yki, xkijr, aut)` (source lines 256-392).
`zk[-1]` on an empty `zk` raises, modelled `none`; the leading
realizability assertion, the trailing `assert u != aut.false` and the
`_make_init` assertions are modelled by `none`.  On success the triple
`(action['impl'], init['impl_env'], init['impl_sys'])` over the extended
variables is returned. -/
def make_rabin_transducer (zk : List (Pred V dom))
    (yki : List (List (Pred V dom)))
    (xkijr : List (List (List (List (Pred V dom)))))
    (aut : Aut V dom) :
    Option (Pred (V ⊕ Bool) (rabin_dom dom aut.win_FG.length aut.win_GF.length)
      × Pred (V ⊕ Bool) (rabin_dom dom aut.win_FG.length aut.win_GF.length)
      × Pred (V ⊕ Bool) (rabin_dom dom aut.win_FG.length aut.win_GF.length)) :=
  match zk.getLast? with
  | none => none
  | some winning =>
    match is_realizable winning aut with
    | some true =>
      let _warn := warn_moore_mealy aut
      let nh := aut.win_FG.length
      let ng := aut.win_GF.length
      let n_w := nh - 1 + 1
      let n_c := ng - 1
      let aut2 := rabin_extend aut
      let env_action := aut2.action_env
      let sys_action := aut2.action_sys
      let goals := aut2.win_GF
      let lift := fun p : Pred V dom => liftPredR nh ng p
      -- \rho_1: descent in persistence basin
      let count := pand (rgoal_keep nh ng) (hold_eq nh ng true nh)
      let zkl := zk.map lift
      let rho_1 := (zkl.tail.foldl
        (fun (br : Pred (V ⊕ Bool) (rabin_dom dom nh ng)
            × Pred (V ⊕ Bool) (rabin_dom dom nh ng)) zl =>
          let basin := br.1
          let zstar := controllable_action basin aut2
          let rim := pand zl (pnot basin)
          let u := pand rim zstar
          let u := pand u count
          (zl, por br.2 u))
        (zkl.headD pfalse, pfalse)).2
      -- \rho_2, \rho_3, \rho_4 over zip(zk, yki, xkijr)
      let st := (zk.zip (yki.zip xkijr)).foldl
        (fun (st : Pred (V ⊕ Bool) (rabin_dom dom nh ng)
            × Pred (V ⊕ Bool) (rabin_dom dom nh ng)
            × Pred (V ⊕ Bool) (rabin_dom dom nh ng)
            × Pred (V ⊕ Bool) (rabin_dom dom nh ng)) zyx =>
          let basin := st.1
          let z := lift zyx.1
          let yi := zyx.2.1
          let xijr := zyx.2.2
          let cox_basin := step env_action sys_action basin aut2
          let rim := pand z (pnot basin)
          let rim := pand rim (pnot cox_basin)
          -- rho_2: pick persistence set
          let count := pand (rgoal_keep nh ng) (hold_eq nh ng false nh)
          let u := pand rim count
          let v := yi.enum.foldl
            (fun v iy =>
              let count := hold_eq nh ng true iy.1
              let ystar := controllable_action (lift iy.2) aut2
              por v (pand count ystar))
            pfalse
          let u := pand u v
          let rho_2 := por st.2.1 u
          -- rho_3: descent in recurrence basin
          let count := pand (pand (rgoal_keep nh ng) (hold_ne nh ng false nh))
            (hold_keep nh ng)
          let u := pand rim count
          let v := xijr.enum.foldl
            (fun v ixjr =>
              let i := ixjr.1
              ((ixjr.2.zip goals).enum.foldl
                (fun v2 jxg =>
                  let j := jxg.1
                  let xr := jxg.2.1.map lift
                  let goal := jxg.2.2
                  let count := pand (rgoal_eq nh ng false j) (hold_eq nh ng false i)
                  let rr := xr.tail.foldl
                    (fun (bp : Pred (V ⊕ Bool) (rabin_dom dom nh ng)
                        × Pred (V ⊕ Bool) (rabin_dom dom nh ng)) x =>
                      let x_basin := bp.1
                      let xstar := controllable_action x_basin aut2
                      let q := pand (pand xstar (pnot x_basin)) x
                      (x, por bp.2 q))
                    (xr.headD pfalse, pfalse)
                  let p := pand rr.2 count
                  let p := pand p (pnot goal)
                  por v2 p)
                v))
            pfalse
          let u := pand u v
          let rho_3 := por st.2.2.1 u
          -- rho_4: advance to next recurrence goal
          let u := goals.enum.foldl
            (fun u jg =>
              let j := jg.1
              let jp := (j + 1) % goals.length
              let count := pand (rgoal_eq nh ng false j) (rgoal_eq nh ng true jp)
              por u (pand count jg.2))
            pfalse
          let count := pand (hold_ne nh ng false nh) (hold_keep nh ng)
          let u := pand u count
          let u := pand u rim
          let v := yi.enum.foldl
            (fun v iy =>
              let count := hold_eq nh ng false iy.1
              let ystar := controllable_action (lift iy.2) aut2
              por v (pand count ystar))
            pfalse
          let u := pand u v
          let rho_4 := por st.2.2.2 u
          (z, rho_2, rho_3, rho_4))
        (pfalse, pfalse, pfalse, pfalse)
      -- \rho
      let u := por rho_1 st.2.1
      let u := por u st.2.2.1
      let u := por u st.2.2.2
      -- counter limits
      let u := pand u (rabin_range nh ng n_w n_c)
      let u :=
        if aut.plus_one then u
        else
          let u := por u (pnot env_action)
          if aut.moore then pforall (varlist_env' aut2) u else u
      if u = pfalse then none
      else
        let count := pand (rgoal_eq nh ng false 0) (hold_eq nh ng false nh)
        match make_init count (lift winning) aut2 with
        | none => none
        | some es => some (u, es.1, es.2)
    | _ => none

/-! ## Trivial winning set (`trivial_winning_set`) -/

/-- The dual game built by `trivial_winning_set` (source lines 589-603):
owners swapped, actions swapped, the negated `H`-list as the new
recurrence goals.  Modelled from the spec for the parts not under `src/`:
`symbolic.fill_blanks(aut_rabin, rabin=True)` and the `symbolic.Automaton`
constructor defaults supply the remaining fields (a trivial `⊤`
persistence hold so that the Rabin solver's `k ≥ 1` requirement holds,
`⊤` initial conditions, and default flags), none of which influence the
disjointness property verified below. -/
def dualize (aut : Aut V dom) : Aut V dom where
  owner := fun v => ! aut.owner v
  action_env := aut.action_sys
  action_sys := aut.action_env
  init_env := ptrue
  init_sys := ptrue
  win_GF := aut.win_FG.map pnot
  win_FG := [ptrue]
  moore := false
  plus_one := true
  qinit := Qinit.AA

/-- The `trivial_winning_set(aut_streett)` (source lines 582-612): solve the
Streett game and the Rabin game on the dual, and intersect the Streett
winner with the complement of the Rabin winner (`win_rabin = zk[-1]`). -/
def trivial_winning_set (aut_streett : Aut V dom) (fuel : Nat) :
    Pred V dom × Aut V dom :=
  let aut_rabin := dualize aut_streett
  let win_streett := (solve_streett_game aut_streett fuel).1
  let zk := (solve_rabin_game aut_rabin fuel).1
  let win_rabin := zk.getLastD pfalse
  (pand win_streett (pnot win_rabin), aut_streett)

/-! ## State-predicate invariant (claim C7)

Under the spec-modelled `CPre`, the universal quantification over the
primed environment variables is applied only when `moore` holds; for a
Mealy game whose actions mention primed environment variables the solver
output can therefore retain primed support and the
`assert is_state_predicate(z)` fails (see `c7_state_predicate_cex`).
When `moore` holds, `CPre` eliminates all primed variables, and the
assertion holds provided the goals and holds are themselves state
predicates. -/

/-- Membership in `p` does not depend on the values of the variables in
`S`. -/
def indepOn (S : Finset (V × Bool)) (p : Pred V dom) : Prop :=
  ∀ a b : Asn V dom, (∀ q : V × Bool, q ∉ S → a q = b q) → (a ∈ p ↔ b ∈ p)

/-- A Moore variant of the trivial game, for the C7 witness. -/
def exMoore : Aut Unit (fun _ => 1) where
  owner := fun _ => true
  action_env := ptrue
  action_sys := ptrue
  init_env := ptrue
  init_sys := ptrue
  win_GF := [ptrue]
  win_FG := [ptrue]
  moore := true
  plus_one := true
  qinit := Qinit.EE

/-- A Mealy game (one environment-owned boolean variable `e`) whose
system action is the primed literal `e'`. -/
def ePrime : Pred Unit (fun _ => 2) :=
  Finset.univ.filter (fun a => a ((), true) = 1)

def exC7 : Aut Unit (fun _ => 2) where
  owner := fun _ => false
  action_env := ptrue
  action_sys := ePrime
  init_env := ptrue
  init_sys := ptrue
  win_GF := [ptrue]
  win_FG := [ptrue]
  moore := false
  plus_one := true
  qinit := Qinit.AA

/-! ## Theorems -/

theorem pand_comm (p q : Pred V dom) : pand p q = pand q p := by
  simp [pand, Finset.inter_comm]

theorem por_comm (p q : Pred V dom) : por p q = por q p := by
  simp [por, Finset.union_comm]

/-- C1. `_controllable_action(target, aut)` returns `prime(target)`
combined as the spec states: under `plus_one` it is
`α_sys ∧ (α_env ⟶ target′)`, otherwise `α_env ⟶ (α_sys ∧ target′)`, and
exactly when `moore` the result is additionally universally quantified
over `varlist["env'"]`; no quantification over primed system variables is
performed. -/
theorem c1_controllable_action_matches_spec (target : Pred V dom) (aut : Aut V dom) :
    controllable_action target aut = controllable_action_spec target aut := by
  unfold controllable_action controllable_action_spec pimp
  by_cases hp : aut.plus_one <;>
    by_cases hm : aut.moore <;>
      simp [hp, hm, pand_comm, por_comm]

theorem pand_subset_left (p q : Pred V dom) : pand p q ⊆ p :=
  Finset.inter_subset_left

theorem subset_por_left (p q : Pred V dom) : p ⊆ por p q :=
  Finset.subset_union_left

theorem foldl_fst_subset {α β γ : Type _}
    (f : Finset γ × β → α → Finset γ × β)
    (hf : ∀ acc x, (f acc x).1 ⊆ acc.1) :
    ∀ (l : List α) (a : Finset γ) (b : β), (l.foldl f (a, b)).1 ⊆ a := by
  intro l
  induction l with
  | nil => intro a b; exact fun t h => h
  | cons hd tl ih =>
    intro a b
    rw [List.foldl_cons]
    have h2 : (tl.foldl f (f (a, b) hd)).1 ⊆ (f (a, b) hd).1 := by
      have h3 := ih (f (a, b) hd).1 (f (a, b) hd).2
      simpa using h3
    exact h2.trans (hf (a, b) hd)

theorem foldl_fst_superset {α β γ : Type _}
    (f : Finset γ × β → α → Finset γ × β)
    (hf : ∀ acc x, acc.1 ⊆ (f acc x).1) :
    ∀ (l : List α) (a : Finset γ) (b : β), a ⊆ (l.foldl f (a, b)).1 := by
  intro l
  induction l with
  | nil => intro a b; exact fun t h => h
  | cons hd tl ih =>
    intro a b
    rw [List.foldl_cons]
    have h2 : (f (a, b) hd).1 ⊆ (tl.foldl f (f (a, b) hd)).1 := by
      have h3 := ih (f (a, b) hd).1 (f (a, b) hd).2
      simpa using h3
    exact (hf (a, b) hd).trans h2

theorem streett_round_subset (aut : Aut V dom) (fuel : Nat) (z : Pred V dom) :
    (streett_round aut fuel z).1 ⊆ z := by
  unfold streett_round
  dsimp only
  refine foldl_fst_subset _ ?_ _ _ _
  intro acc x
  exact pand_subset_left _ _

/-- C2. In `solve_streett_game` the successive values of `Z` taken at
the head of the outer fixpoint loop form a non-increasing chain: for every
compiled game, every fuel, and every outer iteration `n`,
`Z_{n+1} ⊆ Z_n`. -/
theorem c2_streett_Z_nonincreasing (aut : Aut V dom) (fuel n : Nat) :
    streett_Z aut fuel (n + 1) ⊆ streett_Z aut fuel n :=
  streett_round_subset aut fuel (streett_Z aut fuel n)

theorem attr_assume_body_superset (goal : Pred V dom) (aut : Aut V dom)
    (fuel : Nat) (y : Pred V dom) :
    y ⊆ (attr_assume_body goal aut fuel y).1 := by
  unfold attr_assume_body
  dsimp only
  refine foldl_fst_superset _ ?_ _ _ _
  intro acc x
  exact subset_por_left _ _

theorem attr_assume_loop_chain (goal : Pred V dom) (aut : Aut V dom)
    (fuel : Nat) :
    ∀ (n : Nat) (y : Pred V dom) (yj : List (Pred V dom))
      (xjk : List (List (Pred V dom))),
      List.Chain' (· ⊆ ·) yj →
      (∀ l ∈ yj.getLast?, l ⊆ y) →
      List.Chain' (· ⊆ ·) (attr_assume_loop goal aut fuel n y yj xjk).2.1 := by
  intro n
  induction n with
  | zero => intro y yj xjk hc _; exact hc
  | succ n ih =>
    intro y yj xjk hc hlast
    have hsup : y ⊆ (attr_assume_body goal aut fuel y).1 :=
      attr_assume_body_superset goal aut fuel y
    have hc2 : List.Chain' (· ⊆ ·) (yj ++ [(attr_assume_body goal aut fuel y).1]) := by
      rw [List.chain'_append]
      refine ⟨hc, List.chain'_singleton _, ?_⟩
      intro a ha b hb
      simp only [List.head?_cons, Option.mem_def, Option.some.injEq] at hb
      subst hb
      exact (hlast a ha).trans hsup
    unfold attr_assume_loop
    by_cases he : (attr_assume_body goal aut fuel y).1 = y
    · simp only [he, if_pos rfl]
      simpa [he] using hc2
    · simp only [if_neg he]
      refine ih _ _ _ hc2 ?_
      intro l hl
      rw [List.getLast?_concat] at hl
      simp only [Option.mem_def, Option.some.injEq] at hl
      subst hl
      exact fun a h => h

theorem attractor_under_assumptions_chain (goal : Pred V dom)
    (aut : Aut V dom) (fuel : Nat) :
    List.Chain' (· ⊆ ·) (attractor_under_assumptions goal aut fuel).2.1 := by
  unfold attractor_under_assumptions
  exact attr_assume_loop_chain goal aut fuel fuel pfalse [] []
    (List.chain'_nil) (by simp)

theorem foldl_mid_mem {α β γ δ : Type _}
    (f : β × List γ × δ → α → β × List γ × δ) (P : γ → Prop)
    (hf : ∀ acc x, ∀ yj ∈ (f acc x).2.1, yj ∈ acc.2.1 ∨ P yj) :
    ∀ (l : List α) (acc : β × List γ × δ),
      (∀ yj ∈ acc.2.1, P yj) → ∀ yj ∈ (l.foldl f acc).2.1, P yj := by
  intro l
  induction l with
  | nil => intro acc hacc; exact hacc
  | cons hd tl ih =>
    intro acc hacc
    rw [List.foldl_cons]
    refine ih _ ?_
    intro yj hyj
    rcases hf acc hd yj hyj with h | h
    · exact hacc yj h
    · exact h

theorem streett_round_yij_chain (aut : Aut V dom) (fuel : Nat)
    (z : Pred V dom) :
    ∀ yj ∈ (streett_round aut fuel z).2.1, List.Chain' (· ⊆ ·) yj := by
  unfold streett_round
  dsimp only
  refine foldl_mid_mem _ _ ?_ _ _ (by simp)
  intro acc x yj hyj
  simp only [List.mem_append] at hyj
  rcases hyj with h | h
  · exact Or.inl h
  · refine Or.inr ?_
    rw [List.mem_singleton] at h
    subst h
    exact attractor_under_assumptions_chain _ aut fuel

theorem streett_loop_yij_chain (aut : Aut V dom) (fuel : Nat) :
    ∀ (n : Nat) (z : Pred V dom),
      ∀ yj ∈ (streett_loop aut fuel n z).2.1, List.Chain' (· ⊆ ·) yj := by
  intro n
  induction n with
  | zero => intro z yj hyj; simp [streett_loop] at hyj
  | succ n ih =>
    intro z
    unfold streett_loop
    by_cases he : (streett_round aut fuel z).1 = z
    · simp only [he, if_pos rfl]
      exact streett_round_yij_chain aut fuel z
    · simp only [if_neg he]
      exact ih _

theorem attr_assume_loop_yij_prefix (goal : Pred V dom) (aut : Aut V dom)
    (fuel : Nat) :
    ∀ (n : Nat) (y : Pred V dom) (yj : List (Pred V dom))
      (xjk : List (List (Pred V dom))),
      ∃ s, (attr_assume_loop goal aut fuel n y yj xjk).2.1 = yj ++ s := by
  intro n
  induction n with
  | zero => intro y yj xjk; exact ⟨[], by simp [attr_assume_loop]⟩
  | succ n ih =>
    intro y yj xjk
    unfold attr_assume_loop
    by_cases he : (attr_assume_body goal aut fuel y).1 = y
    · exact ⟨[(attr_assume_body goal aut fuel y).1], by simp [he]⟩
    · simp only [if_neg he]
      obtain ⟨s, hs⟩ := ih (attr_assume_body goal aut fuel y).1
        (yj ++ [(attr_assume_body goal aut fuel y).1])
        (xjk ++ [(attr_assume_body goal aut fuel y).2])
      exact ⟨[(attr_assume_body goal aut fuel y).1] ++ s, by
        rw [hs, List.append_assoc]⟩

theorem attractor_under_assumptions_head (goal : Pred V dom)
    (aut : Aut V dom) (fuel : Nat) :
    (attractor_under_assumptions goal aut (fuel + 1)).2.1.head? =
      some ((attr_assume_body goal aut (fuel + 1) pfalse).1) := by
  unfold attractor_under_assumptions attr_assume_loop
  by_cases he : (attr_assume_body goal aut (fuel + 1) pfalse).1 = pfalse
  · simp [he]
  · simp only [if_neg he]
    obtain ⟨s, hs⟩ := attr_assume_loop_yij_prefix goal aut (fuel + 1) fuel
      (attr_assume_body goal aut (fuel + 1) pfalse).1
      ([] ++ [(attr_assume_body goal aut (fuel + 1) pfalse).1])
      ([] ++ [(attr_assume_body goal aut (fuel + 1) pfalse).2])
    rw [hs]
    simp

/-- C3 (amended). For every compiled game, every recorded Y-iterate
list returned by `solve_streett_game` is monotonically non-decreasing in
its index (`yⱼ[ℓ] ⊆ yⱼ[ℓ+1]`), and the first recorded element of the
attractor's Y-list is the value of `Y` after the *first* pass of the
attractor loop applied to `Y = ⊥` — which need not be `⊥` itself (the
iterate is recorded after the per-hold pass, not before). -/
theorem c3_streett_y_iterates (aut : Aut V dom) (fuel : Nat) :
    (∀ yj ∈ (solve_streett_game aut fuel).2.1, List.Chain' (· ⊆ ·) yj)
    ∧ ∀ goal : Pred V dom,
        (attractor_under_assumptions goal aut (fuel + 1)).2.1.head? =
          some ((attr_assume_body goal aut (fuel + 1) pfalse).1) :=
  ⟨fun yj h => streett_loop_yij_chain aut fuel fuel ptrue yj h,
   fun goal => attractor_under_assumptions_head goal aut fuel⟩

theorem c3_streett_y_iterates_witness :
    List.Chain' (· ⊆ ·) [(ptrue : Pred Unit (fun _ => 1)), ptrue] :=
  (c3_streett_y_iterates exTriv 3).1 [ptrue, ptrue] (by decide)

/-- Counterexample to C3 as stated: on the trivial realizable game the
Y-iterate list recorded for goal 0 by `solve_streett_game` is `[⊤, ⊤]`,
whose first element is `⊤ ≠ ⊥`. -/
theorem c3_first_y_not_bot_cex :
    (solve_streett_game exTriv 3).2.1 = [[ptrue, ptrue]]
    ∧ (ptrue : Pred Unit (fun _ => 1)) ≠ pfalse := by
  exact ⟨by decide, by decide⟩

theorem subset_por_right (p q : Pred V dom) : q ⊆ por p q :=
  Finset.subset_union_right

theorem rabin_round_superset (aut : Aut V dom) (fuel : Nat) (z : Pred V dom) :
    z ⊆ (rabin_round aut fuel z).1 := by
  unfold rabin_round
  refine foldl_fst_superset _ ?_ _ _ _
  intro acc x
  exact subset_por_left _ _

theorem rabin_loop_chain (aut : Aut V dom) (fuel : Nat) :
    ∀ (n : Nat) (z : Pred V dom) (zk : List (Pred V dom))
      (yki : List (List (Pred V dom)))
      (xkijr : List (List (List (List (Pred V dom))))),
      List.Chain' (· ⊆ ·) zk →
      (∀ l ∈ zk.getLast?, l ⊆ z) →
      List.Chain' (· ⊆ ·) (rabin_loop aut fuel n z zk yki xkijr).1 := by
  intro n
  induction n with
  | zero => intro z zk yki xkijr hc _; exact hc
  | succ n ih =>
    intro z zk yki xkijr hc hlast
    have hsup : z ⊆ (rabin_round aut fuel z).1 :=
      rabin_round_superset aut fuel z
    have hc2 : List.Chain' (· ⊆ ·) (zk ++ [(rabin_round aut fuel z).1]) := by
      rw [List.chain'_append]
      refine ⟨hc, List.chain'_singleton _, ?_⟩
      intro a ha b hb
      simp only [List.head?_cons, Option.mem_def, Option.some.injEq] at hb
      subst hb
      exact (hlast a ha).trans hsup
    unfold rabin_loop
    by_cases he : (rabin_round aut fuel z).1 = z
    · simp only [he, if_pos rfl]
      simpa [he] using hc2
    · simp only [if_neg he]
      refine ih _ _ _ _ hc2 ?_
      intro l hl
      rw [List.getLast?_concat] at hl
      simp only [Option.mem_def, Option.some.injEq] at hl
      subst hl
      exact fun a h => h

/-- C4. In `solve_rabin_game` the recorded Z-iterates grow
monotonically: for every compiled game, every fuel, and every index `ℓ`,
`zk[ℓ] ⊆ zk[ℓ+1]`. -/
theorem c4_rabin_zk_nondecreasing (aut : Aut V dom) (fuel : Nat) :
    List.Chain' (· ⊆ ·) (solve_rabin_game aut fuel).1 :=
  rabin_loop_chain aut fuel fuel pfalse [] [] [] List.chain'_nil (by simp)

theorem attractor_inside_body_superset (inside goal : Pred V dom)
    (aut : Aut V dom) (x : Pred V dom) :
    x ⊆ attractor_inside_body inside goal aut x := by
  unfold attractor_inside_body
  exact subset_por_right _ _

theorem attr_inside_loop_chain (inside goal : Pred V dom) (aut : Aut V dom) :
    ∀ (n : Nat) (x : Pred V dom) (xr : List (Pred V dom)),
      List.Chain' (· ⊆ ·) xr →
      (∀ l ∈ xr.getLast?, l ⊆ x) →
      List.Chain' (· ⊆ ·) (attr_inside_loop inside goal aut n x xr).2 := by
  intro n
  induction n with
  | zero => intro x xr hc _; exact hc
  | succ n ih =>
    intro x xr hc hlast
    have hsup : x ⊆ attractor_inside_body inside goal aut x :=
      attractor_inside_body_superset inside goal aut x
    have hc2 : List.Chain' (· ⊆ ·)
        (xr ++ [attractor_inside_body inside goal aut x]) := by
      rw [List.chain'_append]
      refine ⟨hc, List.chain'_singleton _, ?_⟩
      intro a ha b hb
      simp only [List.head?_cons, Option.mem_def, Option.some.injEq] at hb
      subst hb
      exact (hlast a ha).trans hsup
    unfold attr_inside_loop
    by_cases he : attractor_inside_body inside goal aut x = x
    · simp only [he, if_pos rfl]
      simpa [he] using hc2
    · simp only [if_neg he]
      refine ih _ _ hc2 ?_
      intro l hl
      rw [List.getLast?_concat] at hl
      simp only [Option.mem_def, Option.some.injEq] at hl
      subst hl
      exact fun a h => h

theorem attr_inside_loop_getLast (inside goal : Pred V dom) (aut : Aut V dom) :
    ∀ (n : Nat) (x : Pred V dom) (xr : List (Pred V dom)),
      xr.getLast? = some x →
      (attr_inside_loop inside goal aut n x xr).2.getLast? =
        some ((attr_inside_loop inside goal aut n x xr).1) := by
  intro n
  induction n with
  | zero => intro x xr h; exact h
  | succ n ih =>
    intro x xr h
    unfold attr_inside_loop
    by_cases he : attractor_inside_body inside goal aut x = x
    · simp [he, List.getLast?_concat]
    · simp only [if_neg he]
      refine ih _ _ ?_
      rw [List.getLast?_concat]

/-- C10. `_attractor_inside(inside, goal, aut)` returns `(x, xr)`
where `xr` is non-empty, the recorded iterates form a non-decreasing
chain (`xr[ℓ] ⊆ xr[ℓ+1]`), the returned fixpoint `x` is the last element
`xr[-1]`, and when the fixpoint converges immediately (the first
iteration maps `⊥` to `⊥`) `xr` contains exactly one element. -/
theorem c10_attractor_inside (inside goal : Pred V dom) (aut : Aut V dom)
    (fuel : Nat) :
    (attractor_inside inside goal aut (fuel + 1)).2 ≠ []
    ∧ List.Chain' (· ⊆ ·) (attractor_inside inside goal aut (fuel + 1)).2
    ∧ (attractor_inside inside goal aut (fuel + 1)).2.getLast? =
        some ((attractor_inside inside goal aut (fuel + 1)).1)
    ∧ (attractor_inside_body inside goal aut pfalse = pfalse →
        (attractor_inside inside goal aut (fuel + 1)).2.length = 1) := by
  have hlast : (attractor_inside inside goal aut (fuel + 1)).2.getLast? =
      some ((attractor_inside inside goal aut (fuel + 1)).1) := by
    unfold attractor_inside attr_inside_loop
    by_cases he : attractor_inside_body inside goal aut pfalse = pfalse
    · simp [he, List.getLast?_concat]
    · simp only [if_neg he]
      refine attr_inside_loop_getLast inside goal aut _ _ _ ?_
      rw [List.getLast?_concat]
  refine ⟨?_, ?_, hlast, ?_⟩
  · intro hnil
    rw [hnil] at hlast
    simp at hlast
  · unfold attractor_inside
    exact attr_inside_loop_chain inside goal aut (fuel + 1) pfalse []
      List.chain'_nil (by simp)
  · intro hconv
    unfold attractor_inside attr_inside_loop
    simp [hconv]

theorem c10_attractor_inside_witness :
    (attractor_inside (pfalse : Pred Unit (fun _ => 1)) pfalse exTriv 3).2.length = 1 :=
  (c10_attractor_inside pfalse pfalse exTriv 2).2.2.2 (by decide)

/-- C9. Whenever `_make_init` returns normally, both synthesized
initial predicates are non-empty: `init['impl_env'] ≠ ⊥` and
`init['impl_sys'] ≠ ⊥`; an empty result triggers the assertion (modelled
`none`) before either key is written. -/
theorem c9_make_init_nonempty (internal_init win : Pred V dom)
    (aut : Aut V dom) (r : Pred V dom × Pred V dom)
    (h : make_init internal_init win aut = some r) :
    r.1 ≠ pfalse ∧ r.2 ≠ pfalse := by
  unfold make_init at h
  dsimp only at h
  split_ifs at h with h1 h2
  injection h with h3
  subst h3
  exact ⟨h1, h2⟩

theorem c9_make_init_nonempty_witness :
    ((ptrue : Pred Unit (fun _ => 1)) ≠ pfalse)
    ∧ ((ptrue : Pred Unit (fun _ => 1)) ≠ pfalse) :=
  c9_make_init_nonempty ptrue ptrue exTriv (ptrue, ptrue) (by decide)

/-- C5 (amended). Under `qinit = ∃∀`, `_make_init` sets
`init['impl_env']` to `env_bound ∧ sys_bound` where
`env_bound = ∃sys. ι_env` and
`sys_bound = ∀env. ((ι_env ∧ ι_sys ∧ counter_init ∧ W) ∨ ¬env_bound)` —
the first disjunct is a *conjunction* `ι_env ∧ …`, not the implication
`ι_env ⟶ …` that the claim states (the two differ when `ι_env` mentions
system variables) — and `init['impl_sys'] = ι_sys ∧ counter_init ∧ W`. -/
theorem c5_make_init_EA (internal_init win : Pred V dom) (aut : Aut V dom)
    (r : Pred V dom × Pred V dom) (hq : aut.qinit = Qinit.EA)
    (h : make_init internal_init win aut = some r) :
    r.1 = pand (pexist (varlist_sys aut) aut.init_env)
            (pforall (varlist_env aut)
              (por (pand aut.init_env
                     (pand (pand aut.init_sys internal_init) win))
                (pnot (pexist (varlist_sys aut) aut.init_env))))
    ∧ r.2 = pand (pand aut.init_sys internal_init) win := by
  unfold make_init at h
  rw [hq] at h
  dsimp only at h
  split_ifs at h with h1 h2
  injection h with h3
  subst h3
  exact ⟨rfl, rfl⟩

theorem c5_make_init_EA_witness :
    (sVar = pand (pexist (varlist_sys exC5) exC5.init_env)
              (pforall (varlist_env exC5)
                (por (pand exC5.init_env
                       (pand (pand exC5.init_sys ptrue) ptrue))
                  (pnot (pexist (varlist_sys exC5) exC5.init_env)))))
    ∧ (ptrue : Pred Unit (fun _ => 2)) = pand (pand exC5.init_sys ptrue) ptrue :=
  c5_make_init_EA ptrue ptrue exC5 (sVar, ptrue) rfl (by decide)

/-- Counterexample to C5 as stated: on `exC5` the code computes
`init['impl_env'] = (s = 1)`, while the claim's formula (implication
form) evaluates to `⊤`. -/
theorem c5_make_init_EA_cex :
    (make_init ptrue ptrue exC5).map Prod.fst ≠
      some (make_init_EA_env_init_spec ptrue ptrue exC5) := by
  decide

/-- C6. If the realizability check returns false, calling
`make_streett_transducer` (with winning set `z`) or
`make_rabin_transducer` (with winning set `zk[-1]`) fails at the leading
assertion before any output (counter variables, `action['impl']`,
`init['impl_*']`) is produced. -/
theorem c6_unrealizable_no_output (z : Pred V dom)
    (yij : List (List (Pred V dom))) (xijk : List (List (List (Pred V dom))))
    (zk : List (Pred V dom)) (yki : List (List (Pred V dom)))
    (xkijr : List (List (List (List (Pred V dom))))) (aut : Aut V dom)
    (w : Pred V dom) :
    (is_realizable z aut = some false →
      make_streett_transducer z yij xijk aut = none)
    ∧ (zk.getLast? = some w → is_realizable w aut = some false →
        make_rabin_transducer zk yki xkijr aut = none) := by
  constructor
  · intro h
    unfold make_streett_transducer
    rw [h]
  · intro hl h
    unfold make_rabin_transducer
    rw [hl]
    dsimp only
    rw [h]

theorem c6_unrealizable_no_output_witness :
    make_streett_transducer (pfalse : Pred Unit (fun _ => 1)) [] [] exTriv = none
    ∧ make_rabin_transducer [(pfalse : Pred Unit (fun _ => 1))] [] [] exTriv = none :=
  ⟨(c6_unrealizable_no_output pfalse [] [] [pfalse] [] [] exTriv pfalse).1
      (by decide),
   (c6_unrealizable_no_output pfalse [] [] [pfalse] [] [] exTriv pfalse).2
      (by decide) (by decide)⟩

/-- C8. The predicate returned by `trivial_winning_set` is disjoint
from the Rabin winning set of the dualized game:
`trivial ∧ win_rabin = ⊥`. -/
theorem c8_trivial_disjoint_win_rabin (aut : Aut V dom) (fuel : Nat) :
    pand (trivial_winning_set aut fuel).1
      ((solve_rabin_game (dualize aut) fuel).1.getLastD pfalse) = pfalse := by
  unfold trivial_winning_set
  dsimp only
  unfold pand pnot pfalse
  ext a
  simp only [Finset.mem_inter, Finset.mem_sdiff, Finset.mem_univ, true_and,
    Finset.not_mem_empty, iff_false]
  rintro ⟨⟨-, hnot⟩, hmem⟩
  exact hnot hmem

theorem indepOn_mono {S T : Finset (V × Bool)} (hST : S ⊆ T) {p : Pred V dom}
    (h : indepOn T p) : indepOn S p := by
  intro a b hab
  exact h a b (fun q hq => hab q (fun hqS => hq (hST hqS)))

theorem indepOn_empty (p : Pred V dom) : indepOn (∅ : Finset (V × Bool)) p := by
  intro a b hab
  have hfun : a = b := funext (fun q => hab q (by simp))
  rw [hfun]

theorem indepOn_pexist (L : Finset (V × Bool)) {S : Finset (V × Bool)}
    {p : Pred V dom} (hp : indepOn S p) : indepOn (S ∪ L) (pexist L p) := by
  have key : ∀ a b : Asn V dom, (∀ q : V × Bool, q ∉ S ∪ L → a q = b q) →
      a ∈ pexist L p → b ∈ pexist L p := by
    intro a b hab ha
    rw [pexist, Finset.mem_filter] at ha ⊢
    obtain ⟨-, c, hc, hac⟩ := ha
    refine ⟨Finset.mem_univ _, fun q => if q ∈ L then c q else b q, ?_, ?_⟩
    · refine (hp c _ ?_).mp hc
      intro q hqS
      by_cases hqL : q ∈ L
      · rw [if_pos hqL]
      · rw [if_neg hqL]
        have h1 : a q = b q := hab q (by simp [hqS, hqL])
        have h2 : a q = c q := hac q hqL
        rw [← h1, ← h2]
    · intro q hqL
      simp [hqL]
  intro a b hab
  exact ⟨key a b hab, key b a (fun q hq => (hab q hq).symm)⟩

theorem indepOn_pforall (L : Finset (V × Bool)) {S : Finset (V × Bool)}
    {p : Pred V dom} (hp : indepOn S p) : indepOn (S ∪ L) (pforall L p) := by
  have key : ∀ a b : Asn V dom, (∀ q : V × Bool, q ∉ S ∪ L → a q = b q) →
      a ∈ pforall L p → b ∈ pforall L p := by
    intro a b hab ha
    rw [pforall, Finset.mem_filter] at ha ⊢
    refine ⟨Finset.mem_univ _, ?_⟩
    intro c hbc
    have hc' : (fun q => if q ∈ L then c q else a q) ∈ p := by
      refine ha.2 _ ?_
      intro q hqL
      simp [hqL]
    refine (hp _ c ?_).mp hc'
    intro q hqS
    by_cases hqL : q ∈ L
    · rw [if_pos hqL]
    · rw [if_neg hqL]
      have h1 : a q = b q := hab q (by simp [hqS, hqL])
      have h2 : b q = c q := hbc q hqL
      rw [h1, h2]
  intro a b hab
  exact ⟨key a b hab, key b a (fun q hq => (hab q hq).symm)⟩

theorem is_state_predicate_iff_indep (p : Pred V dom) :
    is_state_predicate p ↔
      indepOn (Finset.univ.filter (fun q : V × Bool => q.2 = true)) p := by
  constructor
  · intro h a b hab
    refine h a b ?_
    intro v
    exact hab (v, false) (by simp)
  · intro h a b hab
    refine h a b ?_
    intro q hq
    simp only [Finset.mem_filter, Finset.mem_univ, true_and] at hq
    rcases q with ⟨v, fl⟩
    cases fl
    · exact hab v
    · exact absurd rfl hq

theorem isp_ptrue : is_state_predicate (ptrue : Pred V dom) := by
  intro a b _
  simp [ptrue]

theorem isp_pfalse : is_state_predicate (pfalse : Pred V dom) := by
  intro a b _
  simp [pfalse]

theorem isp_pand {p q : Pred V dom} (hp : is_state_predicate p)
    (hq : is_state_predicate q) : is_state_predicate (pand p q) := by
  intro a b hab
  simp only [pand, Finset.mem_inter]
  rw [hp a b hab, hq a b hab]

theorem isp_por {p q : Pred V dom} (hp : is_state_predicate p)
    (hq : is_state_predicate q) : is_state_predicate (por p q) := by
  intro a b hab
  simp only [por, Finset.mem_union]
  rw [hp a b hab, hq a b hab]

theorem isp_pnot {p : Pred V dom} (hp : is_state_predicate p) :
    is_state_predicate (pnot p) := by
  intro a b hab
  simp only [pnot, Finset.mem_sdiff, Finset.mem_univ, true_and]
  rw [hp a b hab]

/-- Under `moore`, `CPre` quantifies away every primed variable, so its
value is a state predicate whatever the target and actions are. -/
theorem step_isp (e s t : Pred V dom) (aut : Aut V dom)
    (hm : aut.moore = true) : is_state_predicate (step e s t aut) := by
  rw [is_state_predicate_iff_indep]
  unfold step
  dsimp only
  rw [hm]
  refine indepOn_mono ?_
    (indepOn_pforall (varlist_env' aut)
      (indepOn_pexist (varlist_sys' aut) (indepOn_empty _)))
  intro q hq
  simp only [Finset.mem_filter, Finset.mem_univ, true_and] at hq
  simp only [Finset.mem_union, varlist_env', varlist_sys', Finset.mem_filter,
    Finset.mem_univ, true_and, Finset.not_mem_empty, false_or]
  cases howner : aut.owner q.1
  · exact Or.inr ⟨hq, rfl⟩
  · exact Or.inl ⟨hq, rfl⟩

theorem trap_loop_isp (e s safe : Pred V dom) (aut : Aut V dom)
    (unl : Pred V dom) (hm : aut.moore = true) (hsafe : is_state_predicate safe)
    (hunl : is_state_predicate unl) :
    ∀ (n : Nat) (x : Pred V dom), is_state_predicate x →
      is_state_predicate (trap_loop e s safe aut unl n x) := by
  intro n
  induction n with
  | zero => intro x hx; exact hx
  | succ n ih =>
    intro x hx
    have hx2 : is_state_predicate (trap_body e s safe aut unl x) :=
      isp_pand (isp_por (step_isp e s x aut hm) hunl) hsafe
    unfold trap_loop
    dsimp only
    by_cases he : trap_body e s safe aut unl x = x
    · rw [if_pos he]; exact hx2
    · rw [if_neg he]; exact ih _ hx2

theorem trap_isp (e s safe : Pred V dom) (aut : Aut V dom) (unl : Pred V dom)
    (fuel : Nat) (hm : aut.moore = true) (hsafe : is_state_predicate safe)
    (hunl : is_state_predicate unl) :
    is_state_predicate (trap e s safe aut unl fuel) :=
  trap_loop_isp e s safe aut unl hm hsafe hunl fuel ptrue isp_ptrue

theorem foldl_fst_preserve {α β γ : Type _} (f : Finset γ × β → α → Finset γ × β)
    (P : Finset γ → Prop) (Q : α → Prop)
    (hf : ∀ acc x, P acc.1 → Q x → P (f acc x).1) :
    ∀ (l : List α), (∀ x ∈ l, Q x) → ∀ (a : Finset γ) (b : β),
      P a → P (l.foldl f (a, b)).1 := by
  intro l
  induction l with
  | nil => intro _ a b hPa; simpa using hPa
  | cons hd tl ih =>
    intro hQ a b hPa
    rw [List.foldl_cons]
    have h1 : P (f (a, b) hd).1 := hf (a, b) hd hPa (hQ hd (by simp))
    have h2 := ih (fun x hx => hQ x (by simp [hx])) (f (a, b) hd).1
      (f (a, b) hd).2 h1
    simpa using h2

theorem attr_assume_body_isp (goal : Pred V dom) (aut : Aut V dom)
    (fuel : Nat) (y : Pred V dom) (hm : aut.moore = true)
    (hgoal : is_state_predicate goal)
    (hholds : ∀ h ∈ aut.win_FG, is_state_predicate h)
    (hy : is_state_predicate y) :
    is_state_predicate (attr_assume_body goal aut fuel y).1 := by
  unfold attr_assume_body
  dsimp only
  refine foldl_fst_preserve _ is_state_predicate
    (fun safe => is_state_predicate safe) ?_ _ hholds _ _ hy
  intro acc x hacc hx
  exact isp_por hacc
    (trap_isp _ _ _ aut _ fuel hm hx
      (isp_por (step_isp _ _ _ aut hm) hgoal))

theorem attr_assume_loop_isp (goal : Pred V dom) (aut : Aut V dom)
    (fuel : Nat) (hm : aut.moore = true) (hgoal : is_state_predicate goal)
    (hholds : ∀ h ∈ aut.win_FG, is_state_predicate h) :
    ∀ (n : Nat) (y : Pred V dom) (yj : List (Pred V dom))
      (xjk : List (List (Pred V dom))), is_state_predicate y →
      is_state_predicate (attr_assume_loop goal aut fuel n y yj xjk).1 := by
  intro n
  induction n with
  | zero => intro y yj xjk hy; exact hy
  | succ n ih =>
    intro y yj xjk hy
    have hy2 : is_state_predicate (attr_assume_body goal aut fuel y).1 :=
      attr_assume_body_isp goal aut fuel y hm hgoal hholds hy
    unfold attr_assume_loop
    dsimp only
    by_cases he : (attr_assume_body goal aut fuel y).1 = y
    · rw [if_pos he]; exact hy2
    · rw [if_neg he]; exact ih _ _ _ hy2

theorem attractor_under_assumptions_isp (goal : Pred V dom) (aut : Aut V dom)
    (fuel : Nat) (hm : aut.moore = true) (hgoal : is_state_predicate goal)
    (hholds : ∀ h ∈ aut.win_FG, is_state_predicate h) :
    is_state_predicate (attractor_under_assumptions goal aut fuel).1 :=
  attr_assume_loop_isp goal aut fuel hm hgoal hholds fuel pfalse [] [] isp_pfalse

theorem streett_round_isp (aut : Aut V dom) (fuel : Nat) (z : Pred V dom)
    (hm : aut.moore = true) (hgoals : ∀ g ∈ aut.win_GF, is_state_predicate g)
    (hholds : ∀ h ∈ aut.win_FG, is_state_predicate h)
    (hz : is_state_predicate z) :
    is_state_predicate (streett_round aut fuel z).1 := by
  unfold streett_round
  dsimp only
  refine foldl_fst_preserve _ is_state_predicate
    (fun g => is_state_predicate g) ?_ _ hgoals _ _ hz
  intro acc x hacc hx
  exact isp_pand hacc
    (attractor_under_assumptions_isp _ aut fuel hm
      (isp_pand hx (step_isp _ _ _ aut hm)) hholds)

theorem streett_loop_isp (aut : Aut V dom) (fuel : Nat) (hm : aut.moore = true)
    (hgoals : ∀ g ∈ aut.win_GF, is_state_predicate g)
    (hholds : ∀ h ∈ aut.win_FG, is_state_predicate h) :
    ∀ (n : Nat) (z : Pred V dom), is_state_predicate z →
      is_state_predicate (streett_loop aut fuel n z).1 := by
  intro n
  induction n with
  | zero => intro z hz; exact hz
  | succ n ih =>
    intro z hz
    have hz2 : is_state_predicate (streett_round aut fuel z).1 :=
      streett_round_isp aut fuel z hm hgoals hholds hz
    unfold streett_loop
    dsimp only
    by_cases he : (streett_round aut fuel z).1 = z
    · rw [if_pos he]; exact hz2
    · rw [if_neg he]; exact ih _ hz2

theorem attractor_inside_body_isp (inside goal : Pred V dom) (aut : Aut V dom)
    (x : Pred V dom) (hm : aut.moore = true)
    (hin : is_state_predicate inside) (hgoal : is_state_predicate goal)
    (hx : is_state_predicate x) :
    is_state_predicate (attractor_inside_body inside goal aut x) := by
  unfold attractor_inside_body
  dsimp only
  exact isp_por (isp_pand (isp_por (step_isp _ _ _ aut hm) hgoal) hin) hx

theorem attr_inside_loop_isp (inside goal : Pred V dom) (aut : Aut V dom)
    (hm : aut.moore = true) (hin : is_state_predicate inside)
    (hgoal : is_state_predicate goal) :
    ∀ (n : Nat) (x : Pred V dom) (xr : List (Pred V dom)),
      is_state_predicate x →
      is_state_predicate (attr_inside_loop inside goal aut n x xr).1 := by
  intro n
  induction n with
  | zero => intro x xr hx; exact hx
  | succ n ih =>
    intro x xr hx
    have hx2 : is_state_predicate (attractor_inside_body inside goal aut x) :=
      attractor_inside_body_isp inside goal aut x hm hin hgoal hx
    unfold attr_inside_loop
    dsimp only
    by_cases he : attractor_inside_body inside goal aut x = x
    · rw [if_pos he]; exact hx2
    · rw [if_neg he]; exact ih _ _ hx2

theorem cycle_inside_body_isp (g : Pred V dom) (aut : Aut V dom) (fuel : Nat)
    (y : Pred V dom) (hm : aut.moore = true) (hg : is_state_predicate g)
    (hgoals : ∀ gg ∈ aut.win_GF, is_state_predicate gg)
    (hy : is_state_predicate y) :
    is_state_predicate (cycle_inside_body g aut fuel y).1 := by
  unfold cycle_inside_body
  dsimp only
  refine foldl_fst_preserve _ is_state_predicate
    (fun gg => is_state_predicate gg) ?_ _ hgoals _ _ hy
  intro acc x hacc hx
  exact isp_pand hacc
    (attr_inside_loop_isp _ _ aut hm
      (isp_pand (step_isp _ _ _ aut hm) hg) hx fuel pfalse [] isp_pfalse)

theorem cycle_inside_loop_isp (g : Pred V dom) (aut : Aut V dom) (fuel : Nat)
    (hm : aut.moore = true) (hg : is_state_predicate g)
    (hgoals : ∀ gg ∈ aut.win_GF, is_state_predicate gg) :
    ∀ (n : Nat) (y : Pred V dom), is_state_predicate y →
      is_state_predicate (cycle_inside_loop g aut fuel n y).1 := by
  intro n
  induction n with
  | zero => intro y hy; exact hy
  | succ n ih =>
    intro y hy
    have hy2 : is_state_predicate (cycle_inside_body g aut fuel y).1 :=
      cycle_inside_body_isp g aut fuel y hm hg hgoals hy
    unfold cycle_inside_loop
    dsimp only
    by_cases he : (cycle_inside_body g aut fuel y).1 = y
    · rw [if_pos he]; exact hy2
    · rw [if_neg he]; exact ih _ hy2

theorem cycle_inside_isp (z hold : Pred V dom) (aut : Aut V dom) (fuel : Nat)
    (hm : aut.moore = true) (hhold : is_state_predicate hold)
    (hgoals : ∀ g ∈ aut.win_GF, is_state_predicate g) :
    is_state_predicate (cycle_inside z hold aut fuel).1 := by
  unfold cycle_inside
  dsimp only
  exact cycle_inside_loop_isp _ aut fuel hm
    (isp_por (step_isp _ _ _ aut hm) hhold) hgoals fuel ptrue isp_ptrue

theorem rabin_round_isp (aut : Aut V dom) (fuel : Nat) (z : Pred V dom)
    (hm : aut.moore = true) (hgoals : ∀ g ∈ aut.win_GF, is_state_predicate g)
    (hholds : ∀ h ∈ aut.win_FG, is_state_predicate h)
    (hz : is_state_predicate z) :
    is_state_predicate (rabin_round aut fuel z).1 := by
  unfold rabin_round
  refine foldl_fst_preserve _ is_state_predicate
    (fun h => is_state_predicate h) ?_ _ hholds _ _ hz
  intro acc x hacc hx
  exact isp_por hacc (cycle_inside_isp z x aut fuel hm hx hgoals)

theorem rabin_loop_mem_isp (aut : Aut V dom) (fuel : Nat)
    (hm : aut.moore = true) (hgoals : ∀ g ∈ aut.win_GF, is_state_predicate g)
    (hholds : ∀ h ∈ aut.win_FG, is_state_predicate h) :
    ∀ (n : Nat) (z : Pred V dom) (zk : List (Pred V dom))
      (yki : List (List (Pred V dom)))
      (xkijr : List (List (List (List (Pred V dom))))),
      is_state_predicate z → (∀ p ∈ zk, is_state_predicate p) →
      ∀ p ∈ (rabin_loop aut fuel n z zk yki xkijr).1, is_state_predicate p := by
  intro n
  induction n with
  | zero => intro z zk yki xkijr _ hzk; exact hzk
  | succ n ih =>
    intro z zk yki xkijr hz hzk
    have hz2 : is_state_predicate (rabin_round aut fuel z).1 :=
      rabin_round_isp aut fuel z hm hgoals hholds hz
    have hzk2 : ∀ p ∈ zk ++ [(rabin_round aut fuel z).1], is_state_predicate p := by
      intro p hp
      rw [List.mem_append, List.mem_singleton] at hp
      rcases hp with hp | hp
      · exact hzk p hp
      · rw [hp]; exact hz2
    unfold rabin_loop
    dsimp only
    by_cases he : (rabin_round aut fuel z).1 = z
    · rw [if_pos he]; exact hzk2
    · rw [if_neg he]; exact ih _ _ _ _ hz2 hzk2

theorem getLastD_isp {l : List (Pred V dom)}
    (h : ∀ p ∈ l, is_state_predicate p) :
    is_state_predicate (l.getLastD pfalse) := by
  cases hl : l.getLast? with
  | none =>
    rw [List.getLastD_eq_getLast?, hl]
    exact isp_pfalse
  | some a =>
    simp only [List.getLastD_eq_getLast?, hl, Option.getD_some]
    obtain ⟨hne, heq⟩ :=
      List.mem_getLast?_eq_getLast (show a ∈ l.getLast? by rw [hl]; rfl)
    exact h a (heq ▸ List.getLast_mem hne)

/-- C7 (amended). Under the spec-modelled `CPre`, when `moore` holds
(so `CPre` universally quantifies the primed environment variables away)
and every recurrence goal and persistence hold is a state predicate, the
winning set returned by `solve_streett_game` and the final Z-iterate of
`solve_rabin_game` are state predicates (their support is unprimed only),
so the assertions guarding the returns never fail.  Without `moore` the
claim fails: see `c7_state_predicate_cex`. -/
theorem c7_state_predicate (aut : Aut V dom) (fuel : Nat)
    (hm : aut.moore = true)
    (hgoals : ∀ g ∈ aut.win_GF, is_state_predicate g)
    (hholds : ∀ h ∈ aut.win_FG, is_state_predicate h) :
    is_state_predicate (solve_streett_game aut fuel).1
    ∧ is_state_predicate ((solve_rabin_game aut fuel).1.getLastD pfalse) := by
  constructor
  · exact streett_loop_isp aut fuel hm hgoals hholds fuel ptrue isp_ptrue
  · exact getLastD_isp
      (rabin_loop_mem_isp aut fuel hm hgoals hholds fuel pfalse [] [] []
        isp_pfalse (by simp))

theorem c7_state_predicate_witness :
    is_state_predicate (solve_streett_game exMoore 3).1
    ∧ is_state_predicate ((solve_rabin_game exMoore 3).1.getLastD pfalse) :=
  c7_state_predicate exMoore 3 rfl (by decide) (by decide)

/-- Counterexample to C7 as stated: `exC7` satisfies the compiled-game
invariants (one goal, one hold, non-vacuous `ι_env`, actions over
unprimed ∪ primed variables), yet the winning set computed by
`solve_streett_game` under the spec-modelled `CPre` is the primed
literal `e'`, which is not a state predicate. -/
theorem c7_state_predicate_cex :
    ¬ is_state_predicate (solve_streett_game exC7 4).1 := by
  decide

end GR1

